import Mathlib

/-!
Shallow embedding of the file-backed private validator of `privval/file.go`
(CometBFT): the last-sign watermark (`FilePVLastSignState`), its monotonic
`CheckHRS` gate, the `signVote` / `signProposal` signing protocol with the
crash-replay resolver and vote-extension handling, the watermark persistence
(`saveSigned`) modelled as an explicit event trace, and the key/state loader
(`loadFilePV`).

Machine integers of the source (`int64` height, `int32` round, `int8` step)
are modelled as `Int`: the source only compares them, never does arithmetic,
so overflow cannot occur and the comparisons coincide.  Go byte slices are
`List Nat`; a nilable slice (`Signature`, `SignBytes`) is `Option (List Nat)`
with `none` standing for Go `nil`.  The canonical encoder
(`types.VoteSignBytes`, `types.ProposalSignBytes`,
`types.VoteExtensionSignBytes`, protobuf unmarshalling) and the signature
scheme (`crypto.PrivKey.Sign`) live outside this package in the source and
are abstracted as an explicit environment `SignEnv`.
-/

namespace Privval

/-- Byte strings (`[]byte` contents). -/
abbrev Bytes := List Nat

/-- Go `bytes.Equal` and `protoio` treat a nil slice like the empty slice:
this coercion gives the slice contents a nilable field is used with. -/
def bytesOf : Option Bytes → Bytes
  | none => []
  | some bs => bs

/-- Step constants of `privval/file.go`. -/
def stepNone : Int := 0

/-- `stepPropose int8 = 1`. -/
def stepPropose : Int := 1

/-- `stepPrevote int8 = 2`. -/
def stepPrevote : Int := 2

/-- `stepPrecommit int8 = 3`. -/
def stepPrecommit : Int := 3

/-- `cmtproto.SignedMsgType` as far as `voteToStep` distinguishes it. -/
inductive SignedMsgType where
  | prevote
  | precommit
  | other
  deriving DecidableEq, Repr

/-- `types.BlockID` of a vote, reduced to the information the validator
consults: `none` models a zero (nil) block ID as tested by
`types.ProtoBlockIDIsNil`, `some h` a block with hash `h`. -/
abbrev ProtoBlockID := Option Bytes

/-- `cmtproto.Vote`: the fields read or written by `signVote`.
`timestamp` models `time.Time` as an integer instant. -/
structure Vote where
  voteType : SignedMsgType
  height : Int
  round : Int
  blockID : ProtoBlockID
  timestamp : Int
  extension : Bytes
  nonRpExtension : Bytes
  signature : Option Bytes
  extensionSignature : Option Bytes
  nonRpExtensionSignature : Option Bytes
  deriving DecidableEq, Repr

/-- `cmtproto.Proposal`: the fields read or written by `signProposal`. -/
structure Proposal where
  height : Int
  round : Int
  polRound : Int
  blockID : ProtoBlockID
  timestamp : Int
  signature : Option Bytes
  deriving DecidableEq, Repr

/-- `voteToStep`: prevote and precommit map to their step, anything else
panics (`none`). -/
def voteToStep : SignedMsgType → Option Int
  | .prevote => some stepPrevote
  | .precommit => some stepPrecommit
  | .other => none

/-- `FilePVLastSignState`: the mutable watermark. -/
structure FilePVLastSignState where
  height : Int
  round : Int
  step : Int
  signature : Option Bytes
  signBytes : Option Bytes
  deriving DecidableEq, Repr

/-- The zero value of `FilePVLastSignState` (also the result of `reset`). -/
def emptyLastSignState : FilePVLastSignState :=
  { height := 0, round := 0, step := 0, signature := none, signBytes := none }

/-- The watermark triple. -/
def FilePVLastSignState.hrs (lss : FilePVLastSignState) : Int × Int × Int :=
  (lss.height, lss.round, lss.step)

/-- The error kinds `CheckHRS` can return. -/
inductive HRSError where
  | heightRegression
  | roundRegression
  | stepRegression
  | noSignBytes
  deriving DecidableEq, Repr

/-- Result of `CheckHRS`: `(bool, error)` in the source, plus the explicit
panic of the corrupted-state branch. -/
inductive CheckHRSResult where
  | ok (sameHRS : Bool)
  | err (e : HRSError)
  | panic
  deriving DecidableEq, Repr

/-- `FilePVLastSignState.CheckHRS`, clause for clause. -/
def CheckHRS (lss : FilePVLastSignState) (height round step : Int) :
    CheckHRSResult :=
  if lss.height > height then .err .heightRegression
  else if lss.height ≠ height then .ok false
  else if lss.round > round then .err .roundRegression
  else if lss.round ≠ round then .ok false
  else if lss.step > step then .err .stepRegression
  else if lss.step < step then .ok false
  else if lss.signBytes = none then .err .noSignBytes
  else if lss.signature = none then .panic
  else .ok true

/-- Strict lexicographic order on (height, round, step) triples. -/
def hrsLt (a b : Int × Int × Int) : Prop :=
  a.1 < b.1 ∨ (a.1 = b.1 ∧ (a.2.1 < b.2.1 ∨ (a.2.1 = b.2.1 ∧ a.2.2 < b.2.2)))

instance : DecidablePred fun p : (Int × Int × Int) × Int × Int × Int =>
    hrsLt p.1 p.2 := by
  intro p
  unfold hrsLt
  infer_instance

instance (a b : Int × Int × Int) : Decidable (hrsLt a b) := by
  unfold hrsLt
  infer_instance

instance : IsTrans (Int × Int × Int) hrsLt where
  trans a b c hab hbc := by
    rcases a with ⟨a1, a2, a3⟩
    rcases b with ⟨b1, b2, b3⟩
    rcases c with ⟨c1, c2, c3⟩
    simp only [hrsLt] at *
    omega

/-- `cmtproto.CanonicalVote` as the replay resolver uses it: the `timestamp`
field, which the resolver equalises, and `body`, standing for all the other
canonical fields (type, height, round, block ID, chain ID) that
`proto.Equal` compares. -/
structure CanonicalVote where
  timestamp : Int
  body : Bytes
  deriving DecidableEq, Repr

/-- `cmtproto.CanonicalProposal`, modelled like `CanonicalVote`. -/
structure CanonicalProposal where
  timestamp : Int
  body : Bytes
  deriving DecidableEq, Repr

/-- The collaborators `privval/file.go` imports: the canonical encoder
(`types.VoteSignBytes`, `types.VoteExtensionSignBytes`,
`types.ProposalSignBytes`, `protoio.UnmarshalDelimited`), the signature
scheme (`crypto.PrivKey.Sign`, which may fail), and the ambient clock
`cmttime.Now` the resolver uses only as a sentinel. -/
structure SignEnv where
  voteSignBytes : String → Vote → Bytes
  voteExtensionSignBytes : String → Vote → Bytes × Bytes
  proposalSignBytes : String → Proposal → Bytes
  unmarshalCanonicalVote : Bytes → Option CanonicalVote
  unmarshalCanonicalProposal : Bytes → Option CanonicalProposal
  sign : Bytes → Except String Bytes
  now : Int

/-- `checkVotesOnlyDifferByTimestamp`: unmarshal both sign-bytes strings
(panicking, i.e. `none`, if either fails), remember the stored vote's
timestamp, set both timestamps to `now` and compare structurally. -/
def checkVotesOnlyDifferByTimestamp (um : Bytes → Option CanonicalVote)
    (now : Int) (lastSignBytes newSignBytes : Bytes) :
    Option (Int × Bool) :=
  match um lastSignBytes, um newSignBytes with
  | some lastVote, some newVote =>
    let lastTime := lastVote.timestamp
    let lastVote := { lastVote with timestamp := now }
    let newVote := { newVote with timestamp := now }
    some (lastTime, decide (newVote = lastVote))
  | _, _ => none

/-- `checkProposalsOnlyDifferByTimestamp`, same shape for proposals. -/
def checkProposalsOnlyDifferByTimestamp
    (um : Bytes → Option CanonicalProposal) (now : Int)
    (lastSignBytes newSignBytes : Bytes) : Option (Int × Bool) :=
  match um lastSignBytes, um newSignBytes with
  | some lastProposal, some newProposal =>
    let lastTime := lastProposal.timestamp
    let lastProposal := { lastProposal with timestamp := now }
    let newProposal := { newProposal with timestamp := now }
    some (lastTime, decide (newProposal = lastProposal))
  | _, _ => none

/-- The error kinds `signVote` / `signProposal` return. -/
inductive SignError where
  | hrs (e : HRSError)
  | unexpectedExtension
  | conflictingData
  | signFailure (msg : String)
  deriving DecidableEq, Repr

/-- Observable side effects of a signing call, in execution order:
`saveSigned` is the durable watermark write (`lss.Save()` inside
`saveSigned`), `stampSignature` the assignment to the outgoing message's
`Signature` field. -/
inductive Event where
  | saveSigned (height round step : Int) (signBytes sig : Bytes)
  | stampSignature (sig : Option Bytes)
  deriving DecidableEq, Repr

/-- Outcome of a signing call on message type `α`: the watermark and the
(possibly mutated) message after the call, with the emitted events; `panic`
for the unreachable/corruption aborts. -/
inductive SignOutcome (α : Type) where
  | ok (lss : FilePVLastSignState) (msg : α) (events : List Event)
  | err (e : SignError) (lss : FilePVLastSignState) (msg : α)
      (events : List Event)
  | panic
  deriving DecidableEq, Repr

/-- `FilePV.saveSigned` restricted to its effect on the in-memory state:
set height, round, step, signature and sign bytes.  The `Save()` call it
ends with is recorded by the caller as an `Event.saveSigned`. -/
def saveSigned (lss : FilePVLastSignState) (height round step : Int)
    (signBytes sig : Bytes) : FilePVLastSignState :=
  { lss with
    height := height
    round := round
    step := step
    signature := some sig
    signBytes := some signBytes }

/-- The `if signExtension { ... }` block of `signVote`: for a precommit with
a non-nil block ID, compute the two extension sign-bytes strings and sign
each (propagating a signing failure); for any other vote, reject a non-empty
extension payload; then overwrite both extension-signature fields (to the
fresh signatures, or to nil). -/
def signVoteExtStage (env : SignEnv) (chainID : String) (vote : Vote)
    (signExtension : Bool) : Except SignError Vote :=
  if signExtension then
    if vote.voteType = .precommit ∧ vote.blockID ≠ none then
      let ext := env.voteExtensionSignBytes chainID vote
      match env.sign ext.1 with
      | .error m => .error (.signFailure m)
      | .ok extSig =>
        match env.sign ext.2 with
        | .error m => .error (.signFailure m)
        | .ok nonRpExtSig =>
          .ok { vote with
                extensionSignature := some extSig
                nonRpExtensionSignature := some nonRpExtSig }
    else if vote.extension ≠ [] ∨ vote.nonRpExtension ≠ [] then
      .error .unexpectedExtension
    else
      .ok { vote with
            extensionSignature := none
            nonRpExtensionSignature := none }
  else
    .ok vote

/-- `FilePV.signVote`, clause for clause: map the vote type to a step
(panicking on an unknown type), gate through `CheckHRS`, compute the
canonical sign bytes, run the extension stage, then either run the replay
resolver (same HRS) or sign fresh, persist via `saveSigned` and stamp. -/
def signVote (env : SignEnv) (chainID : String)
    (lss : FilePVLastSignState) (vote : Vote) (signExtension : Bool) :
    SignOutcome Vote :=
  match voteToStep vote.voteType with
  | none => .panic
  | some step =>
    match CheckHRS lss vote.height vote.round step with
    | .panic => .panic
    | .err e => .err (.hrs e) lss vote []
    | .ok sameHRS =>
      let signBytes := env.voteSignBytes chainID vote
      match signVoteExtStage env chainID vote signExtension with
      | .error e => .err e lss vote []
      | .ok vote1 =>
        if sameHRS then
          if signBytes = bytesOf lss.signBytes then
            .ok lss { vote1 with signature := lss.signature }
              [.stampSignature lss.signature]
          else
            match checkVotesOnlyDifferByTimestamp env.unmarshalCanonicalVote
                env.now (bytesOf lss.signBytes) signBytes with
            | none => .panic
            | some (timestamp, onlyTime) =>
              if onlyTime then
                .ok lss { vote1 with
                          timestamp := timestamp
                          signature := lss.signature }
                  [.stampSignature lss.signature]
              else
                .err .conflictingData lss vote1 []
        else
          match env.sign signBytes with
          | .error m => .err (.signFailure m) lss vote1 []
          | .ok sig =>
            .ok (saveSigned lss vote.height vote.round step signBytes sig)
              { vote1 with signature := some sig }
              [.saveSigned vote.height vote.round step signBytes sig,
               .stampSignature (some sig)]

/-- `FilePV.signProposal`, clause for clause: like `signVote` with step
`stepPropose` and no extension stage. -/
def signProposal (env : SignEnv) (chainID : String)
    (lss : FilePVLastSignState) (proposal : Proposal) :
    SignOutcome Proposal :=
  match CheckHRS lss proposal.height proposal.round stepPropose with
  | .panic => .panic
  | .err e => .err (.hrs e) lss proposal []
  | .ok sameHRS =>
    let signBytes := env.proposalSignBytes chainID proposal
    if sameHRS then
      if signBytes = bytesOf lss.signBytes then
        .ok lss { proposal with signature := lss.signature }
          [.stampSignature lss.signature]
      else
        match checkProposalsOnlyDifferByTimestamp
            env.unmarshalCanonicalProposal env.now (bytesOf lss.signBytes)
            signBytes with
        | none => .panic
        | some (timestamp, onlyTime) =>
          if onlyTime then
            .ok lss { proposal with
                      timestamp := timestamp
                      signature := lss.signature }
              [.stampSignature lss.signature]
          else
            .err .conflictingData lss proposal []
    else
      match env.sign signBytes with
      | .error m => .err (.signFailure m) lss proposal []
      | .ok sig =>
        .ok (saveSigned lss proposal.height proposal.round stepPropose
              signBytes sig)
          { proposal with signature := some sig }
          [.saveSigned proposal.height proposal.round stepPropose
            signBytes sig,
           .stampSignature (some sig)]

/-- `FilePVKey`: address, public key and private key, as abstract scalars
(`crypto.PrivKey` / `crypto.PubKey` are interfaces outside this package). -/
structure FilePVKey where
  address : Nat
  pubKey : Nat
  privKey : Nat
  deriving DecidableEq, Repr

/-- `FilePV`: one key record and one last-sign state. -/
structure FilePV where
  key : FilePVKey
  lastSignState : FilePVLastSignState
  deriving DecidableEq, Repr

/-- What `os.ReadFile` plus `cmtjson.Unmarshal` yield for a file: absent,
present but unparseable, or parsed content. -/
inductive FileRead (α : Type) where
  | absent
  | malformed
  | content (a : α)
  deriving DecidableEq, Repr

/-- `loadFilePV`, clause for clause, over the parsed file contents.
`derivePub` models `PrivKey.PubKey()` and `deriveAddr` models
`PubKey.Address()`.  `none` models `cmtos.Exit` (the process terminates):
a missing or malformed key file exits; with `loadState = true` a missing or
malformed state file exits too; with `loadState = false` the state file is
not read and the zero state is used.  After parsing, the key record's
public key and address are overwritten with the values re-derived from the
private key. -/
def loadFilePV (derivePub deriveAddr : Nat → Nat)
    (keyFile : FileRead FilePVKey)
    (stateFile : FileRead FilePVLastSignState) (loadState : Bool) :
    Option FilePV :=
  match keyFile with
  | .absent => none
  | .malformed => none
  | .content pvKey =>
    let pvKey :=
      { pvKey with
        pubKey := derivePub pvKey.privKey
        address := deriveAddr (derivePub pvKey.privKey) }
    if loadState then
      match stateFile with
      | .absent => none
      | .malformed => none
      | .content pvState => some { key := pvKey, lastSignState := pvState }
    else
      some { key := pvKey, lastSignState := emptyLastSignState }

/-- One signing request as issued by the consensus engine. -/
inductive Request where
  | vote (chainID : String) (v : Vote) (signExtension : Bool)
  | proposal (chainID : String) (p : Proposal)

/-- The state and events of a signing outcome; `none` on panic. -/
def outcomeParts {α : Type} :
    SignOutcome α → Option (FilePVLastSignState × List Event)
  | .ok lss _ ev => some (lss, ev)
  | .err _ lss _ ev => some (lss, ev)
  | .panic => none

/-- The message carried by a non-panicking outcome. -/
def outcomeMsg {α : Type} : SignOutcome α → Option α
  | .ok _ msg _ => some msg
  | .err _ _ msg _ => some msg
  | .panic => none

/-- The (height, round, step) triples passed to `saveSigned` in a trace. -/
def savedTriples (events : List Event) : List (Int × Int × Int) :=
  events.filterMap fun
    | .saveSigned h r s _ _ => some (h, r, s)
    | _ => none

/-- Run one request against the watermark. -/
def stepRequest (env : SignEnv) (lss : FilePVLastSignState) :
    Request → Option (FilePVLastSignState × List Event)
  | .vote chainID v signExtension =>
    outcomeParts (signVote env chainID lss v signExtension)
  | .proposal chainID p => outcomeParts (signProposal env chainID lss p)

/-- Run a sequence of requests, collecting every (height, round, step)
triple durably persisted via `saveSigned`; a panic aborts the run. -/
def runSeq (env : SignEnv) (lss : FilePVLastSignState) :
    List Request → List (Int × Int × Int)
  | [] => []
  | req :: rest =>
    match stepRequest env lss req with
    | none => []
    | some (lss', ev) => savedTriples ev ++ runSeq env lss' rest

/-- A concrete instantiation of the abstract collaborators, used to evaluate
the theorems on concrete inputs: the canonical bytes are the timestamp
followed by the identity fields, unmarshalling reads the timestamp back off
the head, and signing prepends a tag byte. -/
def demoEnv : SignEnv where
  voteSignBytes := fun _ v =>
    v.timestamp.natAbs :: v.height.natAbs :: v.round.natAbs ::
      bytesOf v.blockID
  voteExtensionSignBytes := fun _ v =>
    (1 :: v.extension, 2 :: v.nonRpExtension)
  proposalSignBytes := fun _ p =>
    p.timestamp.natAbs :: p.height.natAbs :: p.round.natAbs ::
      bytesOf p.blockID
  unmarshalCanonicalVote := fun bs =>
    match bs with
    | [] => none
    | t :: rest => some { timestamp := (t : Int), body := rest }
  unmarshalCanonicalProposal := fun bs =>
    match bs with
    | [] => none
    | t :: rest => some { timestamp := (t : Int), body := rest }
  sign := fun bs => .ok (0 :: bs)
  now := 100

/-- A precommit for block `[7]` at height 10, round 0. -/
def vote0 : Vote :=
  { voteType := .precommit, height := 10, round := 0, blockID := some [7]
    timestamp := 5, extension := [], nonRpExtension := []
    signature := none, extensionSignature := none
    nonRpExtensionSignature := none }

/-- A watermark that already signed `vote0` (signature `[9]`). -/
def lss0 : FilePVLastSignState :=
  { height := 10, round := 0, step := 3, signature := some [9]
    signBytes := some (demoEnv.voteSignBytes "c" vote0) }

/-- A proposal at height 10, round 0. -/
def prop0 : Proposal :=
  { height := 10, round := 0, polRound := -1, blockID := some [7]
    timestamp := 5, signature := none }

/-- A watermark that already signed `prop0` (signature `[8]`). -/
def lssP0 : FilePVLastSignState :=
  { height := 10, round := 0, step := 1, signature := some [8]
    signBytes := some (demoEnv.proposalSignBytes "c" prop0) }

/-- The recoverable error kinds of the propagation policy: regressions,
missing sign bytes, conflicting data and unexpected extensions return to
the caller; a signing failure is the signature scheme's own error. -/
def recoverable : SignError → Bool
  | .hrs _ => true
  | .unexpectedExtension => true
  | .conflictingData => true
  | .signFailure _ => false

/-- `vote0` re-issued for a different block: an equivocation attempt at the
same (height, round, step). -/
def voteConflict : Vote := { vote0 with blockID := some [8] }

/-- `prop0` re-issued for a different block at the same (height, round). -/
def propConflict : Proposal := { prop0 with blockID := some [8] }

/-- `vote0` one height further: a fresh-signature request over `lss0`. -/
def voteFresh : Vote := { vote0 with height := 11 }

/-- `prop0` one height further: a fresh-signature request over `lssP0`. -/
def propFresh : Proposal := { prop0 with height := 11 }

/-! ## Theorems -/

/-- A `(false, nil)` answer of `CheckHRS` means the requested triple is
strictly greater than the watermark in lexicographic order. -/
theorem checkHRS_ok_false_lt (lss : FilePVLastSignState) (h r s : Int)
    (hk : CheckHRS lss h r s = .ok false) : hrsLt lss.hrs (h, r, s) := by
  unfold CheckHRS at hk
  split_ifs at hk <;> simp_all [hrsLt, FilePVLastSignState.hrs] <;> omega

/-- A `(true, nil)` answer of `CheckHRS` means an exact triple match with
sign bytes and signature both present. -/
theorem checkHRS_ok_true_iff (lss : FilePVLastSignState) (h r s : Int) :
    CheckHRS lss h r s = .ok true ↔
      lss.height = h ∧ lss.round = r ∧ lss.step = s ∧
        lss.signBytes ≠ none ∧ lss.signature ≠ none := by
  unfold CheckHRS
  split_ifs <;> simp_all <;> omega

/-- C3: `CheckHRS` case analysis.  An error is returned exactly on a
height, round or step regression or on an exact match with no stored sign
bytes; `(false, nil)` exactly when the request is lexicographically beyond
the watermark; the corruption panic exactly on an exact match with sign
bytes but no signature; `(true, nil)` exactly on an exact match with both
present. -/
theorem c3_checkHRS_cases (lss : FilePVLastSignState) (h r s : Int) :
    (CheckHRS lss h r s = .err .heightRegression ↔ lss.height > h)
    ∧ (CheckHRS lss h r s = .err .roundRegression ↔
        lss.height = h ∧ lss.round > r)
    ∧ (CheckHRS lss h r s = .err .stepRegression ↔
        lss.height = h ∧ lss.round = r ∧ lss.step > s)
    ∧ (CheckHRS lss h r s = .ok false ↔ hrsLt lss.hrs (h, r, s))
    ∧ (CheckHRS lss h r s = .err .noSignBytes ↔
        lss.hrs = (h, r, s) ∧ lss.signBytes = none)
    ∧ (CheckHRS lss h r s = .panic ↔
        lss.hrs = (h, r, s) ∧ lss.signBytes ≠ none ∧ lss.signature = none)
    ∧ (CheckHRS lss h r s = .ok true ↔
        lss.hrs = (h, r, s) ∧ lss.signBytes ≠ none ∧
          lss.signature ≠ none) := by
  unfold CheckHRS
  split_ifs <;>
    simp_all [hrsLt, FilePVLastSignState.hrs, Prod.mk.injEq] <;> omega

/-- C1: replay resolver.  For a `signVote` or `signProposal` call whose
requested (height, round, step) exactly matches the watermark with
`CheckHRS` answering reuse (and, for votes, whose extension stage passed,
yielding the outgoing vote `v1`): if the fresh canonical sign bytes equal
the stored ones byte-for-byte the stored signature is stamped and the call
succeeds with no watermark write; else if the two canonical payloads agree
once both timestamps are set equal, the outgoing message's timestamp is
rewritten to the stored payload's timestamp, the stored signature is
stamped, and the call succeeds with no write; otherwise the call fails with
`conflictingData` and no base signature is produced. -/
theorem c1_replay_resolver (env : SignEnv) (cidV cidP : String)
    (lssV lssP : FilePVLastSignState) (v : Vote) (se : Bool) (v1 : Vote)
    (p : Proposal) (stV : Int)
    (hstep : voteToStep v.voteType = some stV)
    (hkV : CheckHRS lssV v.height v.round stV = .ok true)
    (hext : signVoteExtStage env cidV v se = .ok v1)
    (hkP : CheckHRS lssP p.height p.round stepPropose = .ok true) :
    ((env.voteSignBytes cidV v = bytesOf lssV.signBytes →
        signVote env cidV lssV v se =
          .ok lssV { v1 with signature := lssV.signature }
            [.stampSignature lssV.signature])
      ∧ (∀ lcv ncv : CanonicalVote,
          env.voteSignBytes cidV v ≠ bytesOf lssV.signBytes →
          env.unmarshalCanonicalVote (bytesOf lssV.signBytes) = some lcv →
          env.unmarshalCanonicalVote (env.voteSignBytes cidV v) = some ncv →
          ncv.body = lcv.body →
          signVote env cidV lssV v se =
            .ok lssV
              { v1 with timestamp := lcv.timestamp
                        signature := lssV.signature }
              [.stampSignature lssV.signature])
      ∧ (∀ lcv ncv : CanonicalVote,
          env.voteSignBytes cidV v ≠ bytesOf lssV.signBytes →
          env.unmarshalCanonicalVote (bytesOf lssV.signBytes) = some lcv →
          env.unmarshalCanonicalVote (env.voteSignBytes cidV v) = some ncv →
          ncv.body ≠ lcv.body →
          signVote env cidV lssV v se = .err .conflictingData lssV v1 []))
    ∧ ((env.proposalSignBytes cidP p = bytesOf lssP.signBytes →
        signProposal env cidP lssP p =
          .ok lssP { p with signature := lssP.signature }
            [.stampSignature lssP.signature])
      ∧ (∀ lcp ncp : CanonicalProposal,
          env.proposalSignBytes cidP p ≠ bytesOf lssP.signBytes →
          env.unmarshalCanonicalProposal (bytesOf lssP.signBytes) =
            some lcp →
          env.unmarshalCanonicalProposal (env.proposalSignBytes cidP p) =
            some ncp →
          ncp.body = lcp.body →
          signProposal env cidP lssP p =
            .ok lssP
              { p with timestamp := lcp.timestamp
                       signature := lssP.signature }
              [.stampSignature lssP.signature])
      ∧ (∀ lcp ncp : CanonicalProposal,
          env.proposalSignBytes cidP p ≠ bytesOf lssP.signBytes →
          env.unmarshalCanonicalProposal (bytesOf lssP.signBytes) =
            some lcp →
          env.unmarshalCanonicalProposal (env.proposalSignBytes cidP p) =
            some ncp →
          ncp.body ≠ lcp.body →
          signProposal env cidP lssP p =
            .err .conflictingData lssP p [])) := by
  constructor
  · refine ⟨?_, ?_, ?_⟩
    · intro heq
      simp [signVote, hstep, hkV, hext, heq]
    · intro lcv ncv hne hlast hnew hbody
      simp [signVote, hstep, hkV, hext, hne,
        checkVotesOnlyDifferByTimestamp, hlast, hnew, hbody]
    · intro lcv ncv hne hlast hnew hbody
      simp [signVote, hstep, hkV, hext, hne,
        checkVotesOnlyDifferByTimestamp, hlast, hnew,
        CanonicalVote.mk.injEq, hbody]
  · refine ⟨?_, ?_, ?_⟩
    · intro heq
      simp [signProposal, hkP, heq]
    · intro lcp ncp hne hlast hnew hbody
      simp [signProposal, hkP, hne,
        checkProposalsOnlyDifferByTimestamp, hlast, hnew, hbody]
    · intro lcp ncp hne hlast hnew hbody
      simp [signProposal, hkP, hne,
        checkProposalsOnlyDifferByTimestamp, hlast, hnew,
        CanonicalProposal.mk.injEq, hbody]

/-- Witness for C1: at the concrete watermark `lss0` / `lssP0`, re-signing
the very `vote0` / `prop0` they recorded hits the byte-for-byte branch and
returns the stored signatures with no write. -/
theorem c1_replay_resolver_witness :
    CheckHRS lss0 vote0.height vote0.round stepPrecommit = .ok true ∧
    CheckHRS lssP0 prop0.height prop0.round stepPropose = .ok true ∧
    signVote demoEnv "c" lss0 vote0 false =
      .ok lss0 { vote0 with signature := some [9] }
        [.stampSignature (some [9])] ∧
    signProposal demoEnv "c" lssP0 prop0 =
      .ok lssP0 { prop0 with signature := some [8] }
        [.stampSignature (some [8])] := by
  have h := c1_replay_resolver demoEnv "c" "c" lss0 lssP0 vote0 false vote0
    prop0 stepPrecommit rfl (by decide) rfl (by decide)
  exact ⟨by decide, by decide, h.1.1 (by decide), h.2.1 (by decide)⟩

/-- A non-panicking `signVote` call either saves nothing and leaves the
watermark untouched, or saves exactly one triple, strictly beyond the old
watermark, which becomes the new watermark. -/
theorem signVote_saves (env : SignEnv) (cid : String)
    (lss : FilePVLastSignState) (v : Vote) (se : Bool)
    (lss' : FilePVLastSignState) (ev : List Event)
    (h : outcomeParts (signVote env cid lss v se) = some (lss', ev)) :
    (savedTriples ev = [] ∧ lss' = lss) ∨
    (∃ t, savedTriples ev = [t] ∧ hrsLt lss.hrs t ∧ lss'.hrs = t) := by
  cases hv : voteToStep v.voteType with
  | none => simp [signVote, hv, outcomeParts] at h
  | some step =>
  cases hk : CheckHRS lss v.height v.round step with
  | panic => simp [signVote, hv, hk, outcomeParts] at h
  | err e =>
    left
    simp [signVote, hv, hk, outcomeParts] at h
    obtain ⟨h1, h2⟩ := h; subst h1; subst h2; exact ⟨by simp [savedTriples], rfl⟩
  | ok sameHRS =>
  cases hx : signVoteExtStage env cid v se with
  | error e =>
    left
    simp [signVote, hv, hk, hx, outcomeParts] at h
    obtain ⟨h1, h2⟩ := h; subst h1; subst h2; exact ⟨by simp [savedTriples], rfl⟩
  | ok v1 =>
  cases sameHRS with
  | true =>
    by_cases heq : env.voteSignBytes cid v = bytesOf lss.signBytes
    · left
      simp [signVote, hv, hk, hx, heq, outcomeParts] at h
      obtain ⟨h1, h2⟩ := h; subst h1; subst h2; exact ⟨by simp [savedTriples], rfl⟩
    · cases hc : checkVotesOnlyDifferByTimestamp env.unmarshalCanonicalVote
          env.now (bytesOf lss.signBytes) (env.voteSignBytes cid v) with
      | none => simp [signVote, hv, hk, hx, heq, hc, outcomeParts] at h
      | some tb =>
        cases tb with
        | mk ts onlyTime =>
        cases onlyTime with
        | true =>
          left
          simp [signVote, hv, hk, hx, heq, hc, outcomeParts] at h
          obtain ⟨h1, h2⟩ := h; subst h1; subst h2; exact ⟨by simp [savedTriples], rfl⟩
        | false =>
          left
          simp [signVote, hv, hk, hx, heq, hc, outcomeParts] at h
          obtain ⟨h1, h2⟩ := h; subst h1; subst h2; exact ⟨by simp [savedTriples], rfl⟩
  | false =>
    cases hs : env.sign (env.voteSignBytes cid v) with
    | error m =>
      left
      simp [signVote, hv, hk, hx, hs, outcomeParts] at h
      obtain ⟨h1, h2⟩ := h; subst h1; subst h2; exact ⟨by simp [savedTriples], rfl⟩
    | ok sig =>
      simp [signVote, hv, hk, hx, hs, outcomeParts] at h
      obtain ⟨h1, h2⟩ := h
      subst h1
      subst h2
      right
      exact ⟨(v.height, v.round, step), by simp [savedTriples],
        checkHRS_ok_false_lt lss v.height v.round step hk,
        by simp [saveSigned, FilePVLastSignState.hrs]⟩

/-- A non-panicking `signProposal` call either saves nothing and leaves the
watermark untouched, or saves exactly one triple, strictly beyond the old
watermark, which becomes the new watermark. -/
theorem signProposal_saves (env : SignEnv) (cid : String)
    (lss : FilePVLastSignState) (p : Proposal)
    (lss' : FilePVLastSignState) (ev : List Event)
    (h : outcomeParts (signProposal env cid lss p) = some (lss', ev)) :
    (savedTriples ev = [] ∧ lss' = lss) ∨
    (∃ t, savedTriples ev = [t] ∧ hrsLt lss.hrs t ∧ lss'.hrs = t) := by
  cases hk : CheckHRS lss p.height p.round stepPropose with
  | panic => simp [signProposal, hk, outcomeParts] at h
  | err e =>
    left
    simp [signProposal, hk, outcomeParts] at h
    obtain ⟨h1, h2⟩ := h; subst h1; subst h2; exact ⟨by simp [savedTriples], rfl⟩
  | ok sameHRS =>
  cases sameHRS with
  | true =>
    by_cases heq : env.proposalSignBytes cid p = bytesOf lss.signBytes
    · left
      simp [signProposal, hk, heq, outcomeParts] at h
      obtain ⟨h1, h2⟩ := h; subst h1; subst h2; exact ⟨by simp [savedTriples], rfl⟩
    · cases hc : checkProposalsOnlyDifferByTimestamp
          env.unmarshalCanonicalProposal env.now (bytesOf lss.signBytes)
          (env.proposalSignBytes cid p) with
      | none => simp [signProposal, hk, heq, hc, outcomeParts] at h
      | some tb =>
        cases tb with
        | mk ts onlyTime =>
        cases onlyTime with
        | true =>
          left
          simp [signProposal, hk, heq, hc, outcomeParts] at h
          obtain ⟨h1, h2⟩ := h; subst h1; subst h2; exact ⟨by simp [savedTriples], rfl⟩
        | false =>
          left
          simp [signProposal, hk, heq, hc, outcomeParts] at h
          obtain ⟨h1, h2⟩ := h; subst h1; subst h2; exact ⟨by simp [savedTriples], rfl⟩
  | false =>
    cases hs : env.sign (env.proposalSignBytes cid p) with
    | error m =>
      left
      simp [signProposal, hk, hs, outcomeParts] at h
      obtain ⟨h1, h2⟩ := h; subst h1; subst h2; exact ⟨by simp [savedTriples], rfl⟩
    | ok sig =>
      simp [signProposal, hk, hs, outcomeParts] at h
      obtain ⟨h1, h2⟩ := h
      subst h1
      subst h2
      right
      exact ⟨(p.height, p.round, stepPropose), by simp [savedTriples],
        checkHRS_ok_false_lt lss p.height p.round stepPropose hk,
        by simp [saveSigned, FilePVLastSignState.hrs]⟩

/-- One request saves nothing (watermark untouched) or exactly one triple
strictly beyond the watermark, which becomes the new watermark. -/
theorem stepRequest_saves (env : SignEnv) (lss : FilePVLastSignState)
    (req : Request) (lss' : FilePVLastSignState) (ev : List Event)
    (h : stepRequest env lss req = some (lss', ev)) :
    (savedTriples ev = [] ∧ lss' = lss) ∨
    (∃ t, savedTriples ev = [t] ∧ hrsLt lss.hrs t ∧ lss'.hrs = t) := by
  cases req with
  | vote cid v se => exact signVote_saves env cid lss v se lss' ev h
  | proposal cid p => exact signProposal_saves env cid lss p lss' ev h

/-- The saved triples of a run, prefixed by the starting watermark, form a
strictly increasing lexicographic chain. -/
theorem runSeq_chain (env : SignEnv) (reqs : List Request)
    (lss : FilePVLastSignState) :
    List.Chain' hrsLt (lss.hrs :: runSeq env lss reqs) := by
  induction reqs generalizing lss with
  | nil => simp [runSeq]
  | cons req rest ih =>
    cases h : stepRequest env lss req with
    | none =>
      have hr : runSeq env lss (req :: rest) = [] := by rw [runSeq, h]
      rw [hr]
      simp
    | some pr =>
      obtain ⟨lss', ev⟩ := pr
      have hr : runSeq env lss (req :: rest) =
          savedTriples ev ++ runSeq env lss' rest := by rw [runSeq, h]
      rw [hr]
      rcases stepRequest_saves env lss req lss' ev h with
        ⟨hev, hsame⟩ | ⟨t, hev, hlt, hhrs⟩
      · rw [hev]
        simpa [hsame] using ih lss'
      · rw [hev]
        have hch := ih lss'
        rw [hhrs] at hch
        exact List.Chain'.cons hlt hch

/-- C2: across any sequence of `signVote` / `signProposal` calls from any
starting watermark, the (height, round, step) triples passed to
`saveSigned` (durably persisted) are pairwise strictly increasing in
lexicographic order. -/
theorem c2_monotonic_persistence (env : SignEnv)
    (lss : FilePVLastSignState) (reqs : List Request) :
    List.Pairwise hrsLt (runSeq env lss reqs) := by
  have h := (runSeq_chain env reqs lss).tail
  simpa using List.chain'_iff_pairwise.mp h

/-- Every error return of `signVote` leaves the watermark untouched and
emits no events at all. -/
theorem signVote_err (env : SignEnv) (cid : String)
    (lss : FilePVLastSignState) (v : Vote) (se : Bool) (e : SignError)
    (lss' : FilePVLastSignState) (v' : Vote) (ev : List Event)
    (h : signVote env cid lss v se = .err e lss' v' ev) :
    lss' = lss ∧ ev = [] := by
  cases hv : voteToStep v.voteType with
  | none => simp [signVote, hv] at h
  | some step =>
  cases hk : CheckHRS lss v.height v.round step with
  | panic => simp [signVote, hv, hk] at h
  | err e0 =>
    simp only [signVote, hv, hk] at h
    injection h with h1 h2 h3 h4
    exact ⟨h2.symm, h4.symm⟩
  | ok sameHRS =>
  cases hx : signVoteExtStage env cid v se with
  | error e0 =>
    simp only [signVote, hv, hk, hx] at h
    injection h with h1 h2 h3 h4
    exact ⟨h2.symm, h4.symm⟩
  | ok v1 =>
  cases sameHRS with
  | true =>
    by_cases heq : env.voteSignBytes cid v = bytesOf lss.signBytes
    · simp [signVote, hv, hk, hx, heq] at h
    · cases hc : checkVotesOnlyDifferByTimestamp env.unmarshalCanonicalVote
          env.now (bytesOf lss.signBytes) (env.voteSignBytes cid v) with
      | none => simp [signVote, hv, hk, hx, heq, hc] at h
      | some tb =>
        obtain ⟨ts, onlyTime⟩ := tb
        cases onlyTime with
        | true => simp [signVote, hv, hk, hx, heq, hc] at h
        | false =>
          simp [signVote, hv, hk, hx, heq, hc] at h
          exact ⟨h.2.1.symm, h.2.2.2⟩
  | false =>
    cases hs : env.sign (env.voteSignBytes cid v) with
    | error m =>
      simp [signVote, hv, hk, hx, hs] at h
      exact ⟨h.2.1.symm, h.2.2.2⟩
    | ok sig => simp [signVote, hv, hk, hx, hs] at h

/-- Every error return of `signProposal` leaves the watermark untouched and
emits no events at all. -/
theorem signProposal_err (env : SignEnv) (cid : String)
    (lss : FilePVLastSignState) (p : Proposal) (e : SignError)
    (lss' : FilePVLastSignState) (p' : Proposal) (ev : List Event)
    (h : signProposal env cid lss p = .err e lss' p' ev) :
    lss' = lss ∧ ev = [] := by
  cases hk : CheckHRS lss p.height p.round stepPropose with
  | panic => simp [signProposal, hk] at h
  | err e0 =>
    simp only [signProposal, hk] at h
    injection h with h1 h2 h3 h4
    exact ⟨h2.symm, h4.symm⟩
  | ok sameHRS =>
  cases sameHRS with
  | true =>
    by_cases heq : env.proposalSignBytes cid p = bytesOf lss.signBytes
    · simp [signProposal, hk, heq] at h
    · cases hc : checkProposalsOnlyDifferByTimestamp
          env.unmarshalCanonicalProposal env.now (bytesOf lss.signBytes)
          (env.proposalSignBytes cid p) with
      | none => simp [signProposal, hk, heq, hc] at h
      | some tb =>
        obtain ⟨ts, onlyTime⟩ := tb
        cases onlyTime with
        | true => simp [signProposal, hk, heq, hc] at h
        | false =>
          simp [signProposal, hk, heq, hc] at h
          exact ⟨h.2.1.symm, h.2.2.2⟩
  | false =>
    cases hs : env.sign (env.proposalSignBytes cid p) with
    | error m =>
      simp [signProposal, hk, hs] at h
      exact ⟨h.2.1.symm, h.2.2.2⟩
    | ok sig => simp [signProposal, hk, hs] at h

/-- C6: frame of recoverable errors.  Whenever `signVote` or `signProposal`
returns a recoverable error (a regression, no sign bytes, conflicting data
or an unexpected vote extension), the last-sign state after the call equals
the state before it and no persistence write is recorded. -/
theorem c6_recoverable_error_frame (env : SignEnv) (cid : String)
    (lss : FilePVLastSignState) :
    (∀ (v : Vote) (se : Bool) (e : SignError)
        (lss' : FilePVLastSignState) (v' : Vote) (ev : List Event),
        signVote env cid lss v se = .err e lss' v' ev →
        recoverable e = true →
        lss' = lss ∧ savedTriples ev = [])
    ∧ (∀ (p : Proposal) (e : SignError) (lss' : FilePVLastSignState)
        (p' : Proposal) (ev : List Event),
        signProposal env cid lss p = .err e lss' p' ev →
        recoverable e = true →
        lss' = lss ∧ savedTriples ev = []) := by
  constructor
  · intro v se e lss' v' ev h _
    obtain ⟨h1, h2⟩ := signVote_err env cid lss v se e lss' v' ev h
    exact ⟨h1, by simp [h2, savedTriples]⟩
  · intro p e lss' p' ev h _
    obtain ⟨h1, h2⟩ := signProposal_err env cid lss p e lss' p' ev h
    exact ⟨h1, by simp [h2, savedTriples]⟩

/-- Witness for C6: the conflicting-data rejection of `voteConflict` at the
watermark `lss0` leaves the state exactly `lss0` and records no write. -/
theorem c6_recoverable_error_frame_witness :
    signVote demoEnv "c" lss0 voteConflict false =
      .err .conflictingData lss0 voteConflict [] ∧
    recoverable .conflictingData = true ∧
    (lss0 = lss0 ∧ savedTriples [] = []) :=
  ⟨by decide, rfl,
    (c6_recoverable_error_frame demoEnv "c" lss0).1 voteConflict false
      .conflictingData lss0 voteConflict [] (by decide) rfl⟩

/-- C7: persistence precedes visibility.  Every `signVote` or
`signProposal` call that produces a fresh signature (the request is
strictly beyond the watermark, so `CheckHRS` answered `(false, nil)`)
emits exactly the trace [`saveSigned`, `stampSignature`]: the watermark
for that very signature is persisted strictly before the signature is
stamped into the outgoing message and returned, and the new watermark
records exactly the signed bytes and signature. -/
theorem c7_persist_before_visibility (env : SignEnv) (cid : String)
    (lss : FilePVLastSignState) :
    (∀ (v : Vote) (se : Bool) (st : Int) (lss' : FilePVLastSignState)
        (v' : Vote) (ev : List Event),
        voteToStep v.voteType = some st →
        CheckHRS lss v.height v.round st = .ok false →
        signVote env cid lss v se = .ok lss' v' ev →
        ∃ sig, env.sign (env.voteSignBytes cid v) = .ok sig
          ∧ ev = [Event.saveSigned v.height v.round st
                    (env.voteSignBytes cid v) sig,
                  Event.stampSignature (some sig)]
          ∧ v'.signature = some sig
          ∧ lss' = saveSigned lss v.height v.round st
              (env.voteSignBytes cid v) sig)
    ∧ (∀ (p : Proposal) (lss' : FilePVLastSignState) (p' : Proposal)
        (ev : List Event),
        CheckHRS lss p.height p.round stepPropose = .ok false →
        signProposal env cid lss p = .ok lss' p' ev →
        ∃ sig, env.sign (env.proposalSignBytes cid p) = .ok sig
          ∧ ev = [Event.saveSigned p.height p.round stepPropose
                    (env.proposalSignBytes cid p) sig,
                  Event.stampSignature (some sig)]
          ∧ p'.signature = some sig
          ∧ lss' = saveSigned lss p.height p.round stepPropose
              (env.proposalSignBytes cid p) sig) := by
  constructor
  · intro v se st lss' v' ev hstep hk h
    cases hx : signVoteExtStage env cid v se with
    | error e0 => simp [signVote, hstep, hk, hx] at h
    | ok v1 =>
      cases hs : env.sign (env.voteSignBytes cid v) with
      | error m => simp [signVote, hstep, hk, hx, hs] at h
      | ok sig =>
        refine ⟨sig, rfl, ?_⟩
        simp [signVote, hstep, hk, hx, hs] at h
        exact ⟨h.2.2.symm, by simp [← h.2.1], h.1.symm⟩
  · intro p lss' p' ev hk h
    cases hs : env.sign (env.proposalSignBytes cid p) with
    | error m => simp [signProposal, hk, hs] at h
    | ok sig =>
      refine ⟨sig, rfl, ?_⟩
      simp [signProposal, hk, hs] at h
      exact ⟨h.2.2.symm, by simp [← h.2.1], h.1.symm⟩

/-- Witness for C7: fresh-signing `voteFresh` over `lss0` persists the
(11, 0, precommit) watermark (first event) strictly before stamping the
signature (second event). -/
theorem c7_persist_before_visibility_witness :
    voteToStep voteFresh.voteType = some stepPrecommit ∧
    CheckHRS lss0 voteFresh.height voteFresh.round stepPrecommit =
      .ok false ∧
    (∃ sig, demoEnv.sign (demoEnv.voteSignBytes "c" voteFresh) = .ok sig
      ∧ [Event.saveSigned 11 0 3 [5, 11, 0, 7] [0, 5, 11, 0, 7],
         Event.stampSignature (some [0, 5, 11, 0, 7])] =
          [Event.saveSigned voteFresh.height voteFresh.round stepPrecommit
             (demoEnv.voteSignBytes "c" voteFresh) sig,
           Event.stampSignature (some sig)]
      ∧ ({ voteFresh with
            signature := some [0, 5, 11, 0, 7] } : Vote).signature = some sig
      ∧ saveSigned lss0 11 0 3 [5, 11, 0, 7] [0, 5, 11, 0, 7] =
          saveSigned lss0 voteFresh.height voteFresh.round stepPrecommit
            (demoEnv.voteSignBytes "c" voteFresh) sig) :=
  ⟨rfl, by decide,
    (c7_persist_before_visibility demoEnv "c" lss0).1 voteFresh false
      stepPrecommit (saveSigned lss0 11 0 3 [5, 11, 0, 7] [0, 5, 11, 0, 7])
      { voteFresh with signature := some [0, 5, 11, 0, 7] }
      [Event.saveSigned 11 0 3 [5, 11, 0, 7] [0, 5, 11, 0, 7],
       Event.stampSignature (some [0, 5, 11, 0, 7])]
      rfl (by decide) (by decide)⟩

/-- C9: after every successful load, the key record's public key is
re-derived from the private key and the address from that public key; the
address and public key stored in the key file are silently overridden and
never influence the result. -/
theorem c9_load_rederives_identity (derivePub deriveAddr : Nat → Nat)
    (keyFile : FileRead FilePVKey)
    (stateFile : FileRead FilePVLastSignState) (loadState : Bool) :
    (∀ pv : FilePV,
        loadFilePV derivePub deriveAddr keyFile stateFile loadState =
          some pv →
        pv.key.pubKey = derivePub pv.key.privKey ∧
        pv.key.address = deriveAddr (derivePub pv.key.privKey))
    ∧ (∀ (k : FilePVKey) (a p : Nat),
        loadFilePV derivePub deriveAddr
            (.content { k with address := a, pubKey := p }) stateFile
            loadState =
          loadFilePV derivePub deriveAddr (.content k) stateFile
            loadState) := by
  constructor
  · intro pv h
    cases keyFile with
    | absent => simp [loadFilePV] at h
    | malformed => simp [loadFilePV] at h
    | content k =>
      cases loadState with
      | false =>
        simp [loadFilePV] at h
        simp [← h]
      | true =>
        cases stateFile with
        | absent => simp [loadFilePV] at h
        | malformed => simp [loadFilePV] at h
        | content st =>
          simp [loadFilePV] at h
          simp [← h]
  · intro k a p
    simp [loadFilePV]

/-- Witness for C9: loading a key file whose stored address (1) and public
key (2) disagree with the private key (5) succeeds and returns the
re-derived identity. -/
theorem c9_load_rederives_identity_witness :
    loadFilePV Nat.succ Nat.succ (.content ⟨1, 2, 5⟩) .absent false =
      some { key := ⟨7, 6, 5⟩, lastSignState := emptyLastSignState } ∧
    (⟨7, 6, 5⟩ : FilePVKey).pubKey = Nat.succ 5 ∧
    (⟨7, 6, 5⟩ : FilePVKey).address = Nat.succ (Nat.succ 5) :=
  ⟨by decide,
    ((c9_load_rederives_identity Nat.succ Nat.succ (.content ⟨1, 2, 5⟩)
        .absent false).1
      { key := ⟨7, 6, 5⟩, lastSignState := emptyLastSignState }
      (by decide)).1,
    ((c9_load_rederives_identity Nat.succ Nat.succ (.content ⟨1, 2, 5⟩)
        .absent false).1
      { key := ⟨7, 6, 5⟩, lastSignState := emptyLastSignState }
      (by decide)).2⟩

/-- Counterexample to C8 as stated: with `load_state = true`, a present and
well-formed key file but an absent state file, `loadFilePV` exits the
process (`none`); it does not succeed with the empty last-sign state. -/
theorem c8_counterexample :
    loadFilePV id id (.content ⟨1, 2, 5⟩) .absent true = none ∧
    loadFilePV id id (.content ⟨1, 2, 5⟩) .absent true ≠
      some { key := ⟨5, 5, 5⟩, lastSignState := emptyLastSignState } := by
  constructor <;> decide

/-- C8 amended: with `load_state = true` an absent state file makes the
load exit the process; the empty last-sign state is produced only by the
`load_state = false` path, which does not read the state file at all. -/
theorem c8_amended_absent_state (derivePub deriveAddr : Nat → Nat)
    (k : FilePVKey) (stateFile : FileRead FilePVLastSignState) :
    loadFilePV derivePub deriveAddr (.content k) .absent true = none
    ∧ loadFilePV derivePub deriveAddr (.content k) stateFile false =
        some { key := { k with
                        pubKey := derivePub k.privKey
                        address := deriveAddr (derivePub k.privKey) }
               lastSignState := emptyLastSignState } := by
  constructor <;> simp [loadFilePV]

/-- Extension stage, precommit with non-nil block ID: both extension
sign-bytes strings are signed and stamped, whatever the payloads are. -/
theorem extStage_precommit (env : SignEnv) (cid : String) (v : Vote)
    (es ns : Bytes) (hvt : v.voteType = .precommit)
    (hbid : v.blockID ≠ none)
    (hes : env.sign (env.voteExtensionSignBytes cid v).1 = .ok es)
    (hns : env.sign (env.voteExtensionSignBytes cid v).2 = .ok ns) :
    signVoteExtStage env cid v true =
      .ok { v with extensionSignature := some es
                   nonRpExtensionSignature := some ns } := by
  simp [signVoteExtStage, hvt, hbid, hes, hns]

/-- Extension stage, prevote or nil precommit with a non-empty payload:
rejected with `unexpectedExtension`. -/
theorem extStage_reject (env : SignEnv) (cid : String) (v : Vote)
    (hother : ¬(v.voteType = .precommit ∧ v.blockID ≠ none))
    (hpayload : v.extension ≠ [] ∨ v.nonRpExtension ≠ []) :
    signVoteExtStage env cid v true = .error .unexpectedExtension := by
  rcases hpayload with hp | hp <;> simp [signVoteExtStage, hother, hp]

/-- Extension stage, prevote or nil precommit with empty payloads: both
extension-signature fields are overwritten with nil. -/
theorem extStage_clear (env : SignEnv) (cid : String) (v : Vote)
    (hother : ¬(v.voteType = .precommit ∧ v.blockID ≠ none))
    (he : v.extension = []) (hn : v.nonRpExtension = []) :
    signVoteExtStage env cid v true =
      .ok { v with extensionSignature := none
                   nonRpExtensionSignature := none } := by
  simp [signVoteExtStage, hother, he, hn]

/-- When `CheckHRS` passes and the extension stage errors, `signVote`
returns that error with the original vote and no events. -/
theorem signVote_extStage_error (env : SignEnv) (cid : String)
    (lss : FilePVLastSignState) (v : Vote) (se : Bool) (st : Int)
    (b : Bool) (e : SignError)
    (hstep : voteToStep v.voteType = some st)
    (hk : CheckHRS lss v.height v.round st = .ok b)
    (hx : signVoteExtStage env cid v se = .error e) :
    signVote env cid lss v se = .err e lss v [] := by
  simp [signVote, hstep, hk, hx]

/-- When `CheckHRS` passes and the extension stage yields `v1`, every
non-panicking outcome of `signVote` carries `v1`'s extension-signature
fields (the later stages only touch `signature` and `timestamp`). -/
theorem signVote_msg_of_extStage (env : SignEnv) (cid : String)
    (lss : FilePVLastSignState) (v : Vote) (se : Bool) (st : Int)
    (b : Bool) (v1 v' : Vote)
    (hstep : voteToStep v.voteType = some st)
    (hk : CheckHRS lss v.height v.round st = .ok b)
    (hx : signVoteExtStage env cid v se = .ok v1)
    (h : outcomeMsg (signVote env cid lss v se) = some v') :
    v'.extensionSignature = v1.extensionSignature ∧
    v'.nonRpExtensionSignature = v1.nonRpExtensionSignature := by
  cases b with
  | true =>
    by_cases heq : env.voteSignBytes cid v = bytesOf lss.signBytes
    · simp [signVote, hstep, hk, hx, heq, outcomeMsg] at h
      simp [← h]
    · cases hc : checkVotesOnlyDifferByTimestamp env.unmarshalCanonicalVote
          env.now (bytesOf lss.signBytes) (env.voteSignBytes cid v) with
      | none => simp [signVote, hstep, hk, hx, heq, hc, outcomeMsg] at h
      | some tb =>
        obtain ⟨ts, onlyTime⟩ := tb
        cases onlyTime with
        | true =>
          simp [signVote, hstep, hk, hx, heq, hc, outcomeMsg] at h
          simp [← h]
        | false =>
          simp [signVote, hstep, hk, hx, heq, hc, outcomeMsg] at h
          simp [← h]
  | false =>
    cases hs : env.sign (env.voteSignBytes cid v) with
    | error m =>
      simp [signVote, hstep, hk, hx, hs, outcomeMsg] at h
      simp [← h]
    | ok sig =>
      simp [signVote, hstep, hk, hx, hs, outcomeMsg] at h
      simp [← h]

/-- C4: vote-extension signing under `signExtension = true` (for calls that
pass the `CheckHRS` gate).  A precommit with a non-nil block ID gets both
extension sign-bytes strings freshly signed and stamped into the vote's
extension-signature fields — also when the extension payloads are
zero-length.  Any other vote fails with the unexpected-extension error if a
non-empty payload was supplied, and otherwise ends up with both
extension-signature fields empty. -/
theorem c4_extension_signing (env : SignEnv) (cid : String)
    (lss : FilePVLastSignState) :
    (∀ (v : Vote) (st : Int) (b : Bool) (es ns : Bytes),
        voteToStep v.voteType = some st →
        CheckHRS lss v.height v.round st = .ok b →
        v.voteType = .precommit → v.blockID ≠ none →
        env.sign (env.voteExtensionSignBytes cid v).1 = .ok es →
        env.sign (env.voteExtensionSignBytes cid v).2 = .ok ns →
        ∀ v' : Vote, outcomeMsg (signVote env cid lss v true) = some v' →
          v'.extensionSignature = some es ∧
          v'.nonRpExtensionSignature = some ns)
    ∧ (∀ (v : Vote) (st : Int) (b : Bool),
        voteToStep v.voteType = some st →
        CheckHRS lss v.height v.round st = .ok b →
        ¬(v.voteType = .precommit ∧ v.blockID ≠ none) →
        ((v.extension ≠ [] ∨ v.nonRpExtension ≠ [] →
            signVote env cid lss v true =
              .err .unexpectedExtension lss v [])
          ∧ (v.extension = [] → v.nonRpExtension = [] →
            ∀ v' : Vote,
              outcomeMsg (signVote env cid lss v true) = some v' →
              v'.extensionSignature = none ∧
              v'.nonRpExtensionSignature = none))) := by
  constructor
  · intro v st b es ns hstep hk hvt hbid hes hns v' h
    have hx := extStage_precommit env cid v es ns hvt hbid hes hns
    have := signVote_msg_of_extStage env cid lss v true st b _ v' hstep hk
      hx h
    simpa using this
  · intro v st b hstep hk hother
    constructor
    · intro hpayload
      exact signVote_extStage_error env cid lss v true st b
        .unexpectedExtension hstep hk
        (extStage_reject env cid v hother hpayload)
    · intro he hn v' h
      have hx := extStage_clear env cid v hother he hn
      have := signVote_msg_of_extStage env cid lss v true st b _ v' hstep
        hk hx h
      simpa using this

/-- Witness for C4: fresh-signing the precommit `voteFresh` (zero-length
extension payloads) stamps both freshly computed extension signatures, and
a prevote carrying a non-empty extension payload is rejected with the
unexpected-extension error. -/
theorem c4_extension_signing_witness :
    outcomeMsg (signVote demoEnv "c" lss0 voteFresh true) =
      some { voteFresh with
             signature := some [0, 5, 11, 0, 7]
             extensionSignature := some [0, 1]
             nonRpExtensionSignature := some [0, 2] } ∧
    ({ voteFresh with
       signature := some [0, 5, 11, 0, 7]
       extensionSignature := some [0, 1]
       nonRpExtensionSignature := some [0, 2] } : Vote).extensionSignature =
        some [0, 1] ∧
    signVote demoEnv "c" lss0
        { voteFresh with voteType := .prevote, extension := [3] } true =
      .err .unexpectedExtension lss0
        { voteFresh with voteType := .prevote, extension := [3] } [] :=
  ⟨by decide,
    ((c4_extension_signing demoEnv "c" lss0).1 voteFresh stepPrecommit
      false [0, 1] [0, 2] rfl (by decide) rfl (by decide) rfl rfl
      { voteFresh with
        signature := some [0, 5, 11, 0, 7]
        extensionSignature := some [0, 1]
        nonRpExtensionSignature := some [0, 2] } (by decide)).1,
    ((c4_extension_signing demoEnv "c" lss0).2
      { voteFresh with voteType := .prevote, extension := [3] }
      stepPrevote false rfl (by decide) (by decide)).1
      (Or.inl (by decide))⟩

/-- C5: in the reuse case (exact watermark match) for a non-nil precommit
with `signExtension = true`, a successful `signVote` stamps the stored
(reused) base signature, while both extension signatures are freshly
computed over the newly derived extension sign bytes — never taken from
the watermark — and no state write occurs. -/
theorem c5_reuse_base_fresh_extensions (env : SignEnv) (cid : String)
    (lss : FilePVLastSignState) (v : Vote) (es ns : Bytes)
    (lss' : FilePVLastSignState) (v' : Vote) (ev : List Event)
    (hvt : v.voteType = .precommit) (hbid : v.blockID ≠ none)
    (hk : CheckHRS lss v.height v.round stepPrecommit = .ok true)
    (hes : env.sign (env.voteExtensionSignBytes cid v).1 = .ok es)
    (hns : env.sign (env.voteExtensionSignBytes cid v).2 = .ok ns)
    (h : signVote env cid lss v true = .ok lss' v' ev) :
    v'.signature = lss.signature ∧
    v'.extensionSignature = some es ∧
    v'.nonRpExtensionSignature = some ns ∧
    lss' = lss ∧ savedTriples ev = [] := by
  have hstep : voteToStep v.voteType = some stepPrecommit := by
    rw [hvt]; rfl
  have hx := extStage_precommit env cid v es ns hvt hbid hes hns
  by_cases heq : env.voteSignBytes cid v = bytesOf lss.signBytes
  · simp [signVote, hstep, hk, hx, heq] at h
    obtain ⟨h1, h2, h3⟩ := h
    subst h1
    simp [← h2, h3.symm, savedTriples]
  · cases hc : checkVotesOnlyDifferByTimestamp env.unmarshalCanonicalVote
        env.now (bytesOf lss.signBytes) (env.voteSignBytes cid v) with
    | none => simp [signVote, hstep, hk, hx, heq, hc] at h
    | some tb =>
      obtain ⟨ts, onlyTime⟩ := tb
      cases onlyTime with
      | true =>
        simp [signVote, hstep, hk, hx, heq, hc] at h
        obtain ⟨h1, h2, h3⟩ := h
        subst h1
        simp [← h2, h3.symm, savedTriples]
      | false => simp [signVote, hstep, hk, hx, heq, hc] at h

/-- Witness for C5: re-signing `vote0` at its own watermark with
`signExtension = true` returns the stored base signature `[9]` but freshly
signed extension signatures `[0, 1]` and `[0, 2]`. -/
theorem c5_reuse_base_fresh_extensions_witness :
    signVote demoEnv "c" lss0 vote0 true =
      .ok lss0
        { vote0 with
          signature := some [9]
          extensionSignature := some [0, 1]
          nonRpExtensionSignature := some [0, 2] }
        [.stampSignature (some [9])] ∧
    (({ vote0 with
        signature := some [9]
        extensionSignature := some [0, 1]
        nonRpExtensionSignature := some [0, 2] } : Vote).signature =
        lss0.signature ∧
      ({ vote0 with
         signature := some [9]
         extensionSignature := some [0, 1]
         nonRpExtensionSignature := some [0, 2] } : Vote).extensionSignature
        = some [0, 1]) :=
  ⟨by decide,
    by
      have h := c5_reuse_base_fresh_extensions demoEnv "c" lss0 vote0
        [0, 1] [0, 2] lss0
        { vote0 with
          signature := some [9]
          extensionSignature := some [0, 1]
          nonRpExtensionSignature := some [0, 2] }
        [.stampSignature (some [9])] rfl (by decide) (by decide) rfl rfl
        (by decide)
      exact ⟨h.1, h.2.1⟩⟩

/-- C10: frame effect of a failing replay.  When `signVote` with
`signExtension = true` fails with conflicting data at the watermark HRS,
the vote's extension-signature fields have already been overwritten —
to fresh signatures for a non-nil precommit, to nil for any other vote
with empty payloads — while the base `signature` field of the returned
vote is exactly the caller's original value. -/
theorem c10_failing_call_mutates_extensions (env : SignEnv) (cid : String)
    (lss : FilePVLastSignState) :
    (∀ (v : Vote) (es ns : Bytes) (lcv ncv : CanonicalVote),
        v.voteType = .precommit → v.blockID ≠ none →
        CheckHRS lss v.height v.round stepPrecommit = .ok true →
        env.sign (env.voteExtensionSignBytes cid v).1 = .ok es →
        env.sign (env.voteExtensionSignBytes cid v).2 = .ok ns →
        env.voteSignBytes cid v ≠ bytesOf lss.signBytes →
        env.unmarshalCanonicalVote (bytesOf lss.signBytes) = some lcv →
        env.unmarshalCanonicalVote (env.voteSignBytes cid v) = some ncv →
        ncv.body ≠ lcv.body →
        signVote env cid lss v true =
          .err .conflictingData lss
            { v with extensionSignature := some es
                     nonRpExtensionSignature := some ns } [])
    ∧ (∀ (v : Vote) (st : Int) (lcv ncv : CanonicalVote),
        voteToStep v.voteType = some st →
        ¬(v.voteType = .precommit ∧ v.blockID ≠ none) →
        v.extension = [] → v.nonRpExtension = [] →
        CheckHRS lss v.height v.round st = .ok true →
        env.voteSignBytes cid v ≠ bytesOf lss.signBytes →
        env.unmarshalCanonicalVote (bytesOf lss.signBytes) = some lcv →
        env.unmarshalCanonicalVote (env.voteSignBytes cid v) = some ncv →
        ncv.body ≠ lcv.body →
        signVote env cid lss v true =
          .err .conflictingData lss
            { v with extensionSignature := none
                     nonRpExtensionSignature := none } []) := by
  constructor
  · intro v es ns lcv ncv hvt hbid hk hes hns hne hlast hnew hbody
    have hstep : voteToStep v.voteType = some stepPrecommit := by
      rw [hvt]; rfl
    have hx := extStage_precommit env cid v es ns hvt hbid hes hns
    simp [signVote, hstep, hk, hx, hne, checkVotesOnlyDifferByTimestamp,
      hlast, hnew, CanonicalVote.mk.injEq, hbody]
  · intro v st lcv ncv hstep hother he hn hk hne hlast hnew hbody
    have hx := extStage_clear env cid v hother he hn
    simp [signVote, hstep, hk, hx, hne, checkVotesOnlyDifferByTimestamp,
      hlast, hnew, CanonicalVote.mk.injEq, hbody]

/-- Witness for C10: the conflicting precommit `voteConflict` (different
block, same HRS) with `signExtension = true` fails with conflicting data,
yet the returned vote carries freshly signed extension signatures while
its base signature is still the caller's `none`. -/
theorem c10_failing_call_mutates_extensions_witness :
    signVote demoEnv "c" lss0 voteConflict true =
      .err .conflictingData lss0
        { voteConflict with
          extensionSignature := some [0, 1]
          nonRpExtensionSignature := some [0, 2] } [] ∧
    ({ voteConflict with
       extensionSignature := some [0, 1]
       nonRpExtensionSignature := some [0, 2] } : Vote).signature = none :=
  ⟨(c10_failing_call_mutates_extensions demoEnv "c" lss0).1 voteConflict
      [0, 1] [0, 2] { timestamp := 5, body := [10, 0, 7] }
      { timestamp := 5, body := [10, 0, 8] } rfl (by decide) (by decide)
      rfl rfl (by decide) (by decide) (by decide) (by decide),
    by decide⟩

end Privval
